import Mathlib

/-
  Verification of the pconpy distance-matrix core (pconpy/pconpy.py).

  Shallow embedding conventions:
  * Atom coordinates and masses are idealized as exact rationals (PDB files
    store finite decimals); derived geometric quantities (norms, rotations)
    live in the real numbers.
  * Python float special values are modelled explicitly: the `PyQ` / `PyR`
    types carry `nan`, `inf`, `ninf` (IEEE special values produced by numpy,
    for instance 0.0/0 = nan) and `pynone` (the Python value None).
  * Python exceptions become `Except PErr`.  The two NotImplementedError
    raise sites of the source are distinguished by site, matching the
    taxonomy of the specification: the raise inside get_atom_coord is
    `PErr.unsupportedAtom`, the raise in the dispatcher else-branch of
    calc_distance is `PErr.unsupportedMetric`.  Failed assert statements
    become `PErr.assertionError`, and storing Python None into a numpy
    float array becomes `PErr.typeError`.
-/

set_option linter.unusedVariables false

/-- Exceptions of the embedded program. -/
inductive PErr where
  | unsupportedAtom
  | unsupportedMetric
  | assertionError
  | typeError
  deriving DecidableEq, Repr

/-- A Python numeric value produced by the rational-valued (center-of-mass)
code paths: an exact rational, an IEEE special value, or Python None. -/
inductive PyQ where
  | num (q : ℚ)
  | inf
  | ninf
  | nan
  | pynone
  deriving DecidableEq, Repr

/-- A Python numeric value produced by the real-valued code paths
(norms involve square roots). -/
inductive PyR where
  | num (x : ℝ)
  | inf
  | ninf
  | nan
  | pynone

/-- Cast the rational-valued Python numbers into the real-valued ones
(embedding glue: in Python everything is one float type). -/
def PyQ.toR : PyQ → PyR
  | .num q => .num (q : ℝ)
  | .inf => .inf
  | .ninf => .ninf
  | .nan => .nan
  | .pynone => .pynone

/-- IEEE division of floats as produced by numpy: x/0 is nan for x = 0
and a signed infinity otherwise. -/
def pydivQ (a b : ℚ) : PyQ :=
  if b = 0 then (if a = 0 then .nan else if 0 < a then .inf else .ninf)
  else .num (a / b)

/-- IEEE subtraction on the Python values that can reach it.
The `pynone` rows cannot occur in the embedded program
(calc_center_of_mass never returns None); Python would raise TypeError. -/
def pySubQ : PyQ → PyQ → PyQ
  | .pynone, _ => .pynone
  | _, .pynone => .pynone
  | .nan, _ => .nan
  | _, .nan => .nan
  | .inf, .inf => .nan
  | .inf, _ => .inf
  | .ninf, .ninf => .nan
  | .ninf, _ => .ninf
  | .num _, .inf => .ninf
  | .num _, .ninf => .inf
  | .num a, .num b => .num (a - b)

/-- numpy.linalg.norm of a scalar float: the absolute value,
with nan propagating. -/
def pyAbsQ : PyQ → PyQ
  | .num a => .num |a|
  | .inf => .inf
  | .ninf => .inf
  | .nan => .nan
  | .pynone => .pynone

/-- The binary maximum as computed by the numpy max reduction:
nan propagates, infinities compare as expected. -/
def pyMaxQ : PyQ → PyQ → PyQ
  | .nan, _ => .nan
  | _, .nan => .nan
  | .pynone, x => .pynone
  | x, .pynone => .pynone
  | .inf, _ => .inf
  | _, .inf => .inf
  | .ninf, x => x
  | x, .ninf => x
  | .num a, .num b => if a ≤ b then .num b else .num a

/-- An atom: identifier (PDB atom name), exact 3D coordinate, mass.
Mirrors the fields of the Bio.PDB Atom objects that the source reads. -/
structure Atom where
  id : String
  cx : ℚ
  cy : ℚ
  cz : ℚ
  mass : ℚ
  deriving DecidableEq, Repr

/-- A residue: the ordered list of its atoms
(Bio.PDB Residue.get_list / get_iterator order). -/
structure Residue where
  atoms : List Atom
  deriving DecidableEq, Repr

/-- Atom lookup by name, as done by the Bio.PDB mapping res[atom_name];
returns the first atom carrying the name. -/
def Residue.lookup (res : Residue) (atom_name : String) : Option Atom :=
  res.atoms.find? (fun a => a.id == atom_name)

def emptyRes : Residue := ⟨[]⟩

/-- A 3D vector over the reals (the type of computed coordinates). -/
structure Vec3R where
  x : ℝ
  y : ℝ
  z : ℝ

def Vec3R.sub (v w : Vec3R) : Vec3R := ⟨v.x - w.x, v.y - w.y, v.z - w.z⟩

def Vec3R.add (v w : Vec3R) : Vec3R := ⟨v.x + w.x, v.y + w.y, v.z + w.z⟩

/-- The coordinate of an atom as a real vector (atom.get_coord()). -/
noncomputable def Atom.coordR (a : Atom) : Vec3R := ⟨(a.cx : ℝ), (a.cy : ℝ), (a.cz : ℝ)⟩

/-- Euclidean norm, numpy.linalg.norm of a 3-vector. -/
noncomputable def normR (v : Vec3R) : ℝ := Real.sqrt (v.x ^ 2 + v.y ^ 2 + v.z ^ 2)

/-- A 3x3 real matrix given by its entries. -/
structure Mat3 where
  m00 : ℝ
  m01 : ℝ
  m02 : ℝ
  m10 : ℝ
  m11 : ℝ
  m12 : ℝ
  m20 : ℝ
  m21 : ℝ
  m22 : ℝ

/-- Bio.PDB.rotaxis (rotaxis2m): normalizes the axis and builds the
Rodrigues rotation matrix for the angle theta, entry by entry exactly as in
Bio.PDB.vectors.rotaxis2m. -/
noncomputable def rotaxis (theta : ℝ) (axis : Vec3R) : Mat3 :=
  let n := Real.sqrt (axis.x ^ 2 + axis.y ^ 2 + axis.z ^ 2)
  let x := axis.x / n
  let y := axis.y / n
  let z := axis.z / n
  let c := Real.cos theta
  let s := Real.sin theta
  let t := 1 - c
  ⟨t * x * x + c, t * x * y - s * z, t * x * z + s * y,
   t * x * y + s * z, t * y * y + c, t * y * z - s * x,
   t * x * z - s * y, t * y * z + s * x, t * z * z + c⟩

/-- Bio.PDB Vector.left_multiply: returns Matrix x Vector. -/
def left_multiply (m : Mat3) (v : Vec3R) : Vec3R :=
  ⟨m.m00 * v.x + m.m01 * v.y + m.m02 * v.z,
   m.m10 * v.x + m.m11 * v.y + m.m12 * v.z,
   m.m20 * v.x + m.m21 * v.y + m.m22 * v.z⟩

-- The atom names of the backbone and sidechain atoms (source constants).
def BACKBONE_ATOMS : List String := ["CA", "C", "O", "N"]

def BACKBONE_FULL_ATOMS : List String := ["CA", "C", "O", "N", "H", "H1", "H2", "H3", "OXT"]

def is_backbone (atom : Atom) : Bool := BACKBONE_ATOMS.contains atom.id

def is_sidechain (atom : Atom) : Bool := ! BACKBONE_FULL_ATOMS.contains atom.id

def get_backbone_atoms (res : Residue) : List Atom := res.atoms.filter is_backbone

def get_sidechain_atoms (res : Residue) : List Atom := res.atoms.filter is_sidechain

/-- The VDW radii table of the source (the second, shadowing definition,
a plain dict used via .get with default 0.0).  The key is the first
character of the PDB atom name. -/
def VDW_RADII (c : Char) : ℚ :=
  if c = 'N' then 1.55
  else if c = 'C' then 1.70
  else if c = 'H' then 1.20
  else if c = 'O' then 1.52
  else if c = 'S' then 1.85
  else 0.0

/-- a.get_id()[0]: the first character of the atom name.  Atom names coming
from PDB data are nonempty; on an empty name Python would raise IndexError,
the placeholder default never occurs. -/
def atom_element (a : Atom) : Char := a.id.toList.headD 'X'

/-- get_atom_coord(res, atom_name): return the coordinate of the named atom
if present; for a missing "CB" reconstruct a virtual coordinate; for any
other missing name raise NotImplementedError (UnsupportedAtomError).
The source computes CA_N = N - CA but then rotates the absolute vector N:
this embedding reproduces the source line by line, including the unused
CA_N binding. -/
noncomputable def get_atom_coord (res : Residue) (atom_name : String) : Except PErr Vec3R :=
  match res.lookup atom_name with
  | some a => .ok a.coordR
  | none =>
    if atom_name ≠ "CB" then .error .unsupportedAtom
    else
      match res.lookup "N", res.lookup "CA", res.lookup "C" with
      | some nA, some caA, some cA =>
        let N := nA.coordR
        let CA := caA.coordR
        let C := cA.coordR
        let CA_N := Vec3R.sub N CA
        let CA_C := Vec3R.sub C CA
        let rot_mat := rotaxis (Real.pi * 120.0 / 180.0) CA_C
        .ok (Vec3R.add CA (left_multiply rot_mat N))
      | _, _, _ => .error .assertionError

/-- calc_center_of_mass(atoms).  The source sums a numpy array of shape
(n,3) with .sum() and no axis argument, which adds up all 3n numbers into
one scalar: the result is sum of mass*(x+y+z) divided by the sum of the
masses, a scalar, not a 3-vector.  Division follows IEEE (0.0/0 = nan). -/
def calc_center_of_mass (atoms : List Atom) : PyQ :=
  pydivQ ((atoms.map (fun a => a.mass * (a.cx + a.cy + a.cz))).sum)
         ((atoms.map Atom.mass).sum)

/-- calc_cmass_distance(res_a, res_b, sidechain_only):
numpy.linalg.norm of the difference of the two (scalar) centers of mass. -/
def calc_cmass_distance (res_a res_b : Residue) (sidechain_only : Bool) : PyQ :=
  let atoms_a := if sidechain_only then get_sidechain_atoms res_a else res_a.atoms
  let atoms_b := if sidechain_only then get_sidechain_atoms res_b else res_b.atoms
  pyAbsQ (pySubQ (calc_center_of_mass atoms_a) (calc_center_of_mass atoms_b))

/-- The per-pair value of the minvdw metric: center distance minus the two
VDW radii, radii looked up by the first character of the atom name. -/
noncomputable def pair_vdw_dist (a b : Atom) : ℝ :=
  normR (Vec3R.sub a.coordR b.coordR)
    - (VDW_RADII (atom_element a) : ℝ) - (VDW_RADII (atom_element b) : ℝ)

/-- The loop body of calc_minvdw_distance: min_dist is replaced when it is
still None or when the new pair distance is strictly smaller. -/
noncomputable def minStep (min_dist : Option ℝ) (dist : ℝ) : Option ℝ :=
  match min_dist with
  | none => some dist
  | some m => if dist < m then some dist else some m

/-- calc_minvdw_distance(res_a, res_b): min_dist starts as None and the
nested loops run over all atom pairs of the two residues. -/
noncomputable def calc_minvdw_distance (res_a res_b : Residue) : Option ℝ :=
  (res_a.atoms.bind (fun a => res_b.atoms.map (fun b => pair_vdw_dist a b))).foldl
    minStep none

/-- Wrap the Option-valued result of calc_minvdw_distance back into a
Python value (None or a float). -/
def minvdwVal : Option ℝ → PyR
  | none => .pynone
  | some x => .num x

/-- calc_distance(res_a, res_b, metric): the metric dispatcher.  The
sccmass branch is commented out in the source, so sccmass falls through
to the else branch and raises (UnsupportedMetricError). -/
noncomputable def calc_distance (res_a res_b : Residue) (metric : String) : Except PErr PyR :=
  if metric = "CA" ∨ metric = "CB" then
    match get_atom_coord res_a metric, get_atom_coord res_b metric with
    | .ok A, .ok B => .ok (.num (normR (Vec3R.sub A B)))
    | .error e, _ => .error e
    | .ok _, .error e => .error e
  else if metric = "cmass" then
    .ok (PyQ.toR (calc_cmass_distance res_a res_b false))
  else if metric = "minvdw" then
    .ok (minvdwVal (calc_minvdw_distance res_a res_b))
  else
    .error .unsupportedMetric

/-- A distance matrix: entries indexed by a pair of naturals (numpy 2D
array of floats; entries outside the allocated n x n block are never
touched and stay at the initial 0). -/
def MatR := Nat → Nat → PyR

def matZero : MatR := fun _ _ => .num 0

def updMat (m : MatR) (i j : Nat) (v : PyR) : MatR :=
  fun a b => if a = i ∧ b = j then v else m a b

/-- itertools.combinations(xrange(n), 2): all pairs (i, j) with i < j < n
in lexicographic order. -/
def allPairs (n : Nat) : List (Nat × Nat) :=
  (List.range n).bind (fun i => ((List.range n).filter (fun j => i < j)).map (fun j => (i, j)))

/-- The upper-triangle filling loop of make_dist_matrix.  A Python
exception from calc_distance aborts the whole loop; assigning the Python
value None into the float array would raise TypeError. -/
noncomputable def fillPairs (residues : List Residue) (metric : String) :
    List (Nat × Nat) → MatR → Except PErr MatR
  | [], m => .ok m
  | p :: rest, m =>
    match calc_distance (residues.getD p.1 emptyRes) (residues.getD p.2 emptyRes) metric with
    | .error e => .error e
    | .ok PyR.pynone => .error .typeError
    | .ok d => fillPairs residues metric rest (updMat m p.1 p.2 d)

/-- make_dist_matrix(residues, metric): zero matrix, then fill the upper
triangle pair by pair. -/
noncomputable def make_dist_matrix (residues : List Residue) (metric : String) :
    Except PErr MatR :=
  fillPairs residues metric (allPairs residues.length) matZero

/-- A rational-valued matrix (for the sccmass code path, whose values stay
in the center-of-mass fragment). -/
def MatQ := Nat → Nat → PyQ

def matZeroQ : MatQ := fun _ _ => .num 0

def updMatQ (m : MatQ) (i j : Nat) (v : PyQ) : MatQ :=
  fun a b => if a = i ∧ b = j then v else m a b

/-- The row-major enumeration of all cells of an n x n matrix, as produced
by the two nested enumerate loops of the main block. -/
def allCells (n : Nat) : List (Nat × Nat) :=
  (List.range n).bind (fun i => (List.range n).map (fun j => (i, j)))

/-- The first pass of the sccmass branch of the main block (lines 384-392):
for every cell (i, j), compute the sidechain center-of-mass distance; cells
whose distance is the Python value None are recorded in empty_indices and
skipped, all other values (nan included) are stored. -/
def sccmass_pass (residues : List Residue) : MatQ × List (Nat × Nat) :=
  (allCells residues.length).foldl
    (fun st p =>
      let dist := calc_cmass_distance (residues.getD p.1 emptyRes)
                                       (residues.getD p.2 emptyRes) true
      if dist = PyQ.pynone then (st.1, st.2 ++ [p])
      else (updMatQ st.1 p.1 p.2 dist, st.2))
    (matZeroQ, [])

/-- mat.max(): the numpy maximum reduction over all cells (nan propagates).
The initial element -inf is the identity of the reduction; numpy would
raise on an empty array, which does not occur in the uses below. -/
def matMaxQ (m : MatQ) (n : Nat) : PyQ :=
  ((allCells n).map (fun p => m p.1 p.2)).foldl pyMaxQ PyQ.ninf

/-- The sccmass branch of the main block (lines 384-395): first pass, then
fill each recorded cell with the current matrix maximum (the source
re-evaluates mat.max() at each fill iteration). -/
def sccmass_matrix (residues : List Residue) : MatQ :=
  let st := sccmass_pass residues
  st.2.foldl (fun m p => updMatQ m p.1 p.2 (matMaxQ m residues.length)) st.1

/-- The normalized axis of a rotation (used by the specification model). -/
noncomputable def normalizeV (v : Vec3R) : Vec3R :=
  let n := normR v
  ⟨v.x / n, v.y / n, v.z / n⟩

/-- The cross product of two 3-vectors. -/
def crossV (a b : Vec3R) : Vec3R :=
  ⟨a.y * b.z - a.z * b.y, a.z * b.x - a.x * b.z, a.x * b.y - a.y * b.x⟩

def dotV (a b : Vec3R) : ℝ := a.x * b.x + a.y * b.y + a.z * b.z

def smulV (c : ℝ) (v : Vec3R) : Vec3R := ⟨c * v.x, c * v.y, c * v.z⟩

/-- Rotation of a vector about an axis by an angle, by the Rodrigues
rotation formula (right-hand rule), as named by section 4.1 of the
specification.  This is the specification-side rotation used to state what
the claims say; the code-side rotation is rotaxis / left_multiply above. -/
noncomputable def rodrigues (theta : ℝ) (axis v : Vec3R) : Vec3R :=
  let k := normalizeV axis
  Vec3R.add (Vec3R.add (smulV (Real.cos theta) v) (smulV (Real.sin theta) (crossV k v)))
    (smulV (dotV k v * (1 - Real.cos theta)) k)

/-- Specification model of the virtual CB coordinate, following the words
of the claim: take the vectors CA to N and CA to C, rotate CA to N by
minus 120 degrees about the CA to C axis, add the result to the CA
coordinate.  Used only to compare the code against the claim. -/
noncomputable def virtualCB_spec (res : Residue) : Option Vec3R :=
  match res.lookup "N", res.lookup "CA", res.lookup "C" with
  | some nA, some caA, some cA =>
    some (Vec3R.add caA.coordR
      (rodrigues (-(Real.pi * 120.0 / 180.0)) (Vec3R.sub cA.coordR caA.coordR)
        (Vec3R.sub nA.coordR caA.coordR)))
  | _, _, _ => none

/-- Specification model of the mass-weighted centroid, following the words
of the claim: the 3-vector sum of mass times coordinate over the sum of
the masses, undefined when the total mass is zero.  Used only to compare
the code against the claim. -/
noncomputable def centroid_spec (atoms : List Atom) : Option Vec3R :=
  let mSum : ℚ := (atoms.map Atom.mass).sum
  if mSum = 0 then none
  else some ⟨((atoms.map (fun a => a.mass * a.cx)).sum / mSum : ℚ),
             ((atoms.map (fun a => a.mass * a.cy)).sum / mSum : ℚ),
             ((atoms.map (fun a => a.mass * a.cz)).sum / mSum : ℚ)⟩

/-- Specification model of the center-of-mass distance, following the words
of the claim: the Euclidean norm of the difference of the two 3-vector
centroids.  Used only to compare the code against the claim. -/
noncomputable def cmass_distance_spec (res_a res_b : Residue) : Option ℝ :=
  match centroid_spec res_a.atoms, centroid_spec res_b.atoms with
  | some A, some B => some (normR (Vec3R.sub A B))
  | _, _ => none

-- Concrete inputs used by the claims below.

/-- A glycine-like residue: backbone atoms N, CA, C only, no CB.
N = (2,0,0), CA = (1,0,0), C = (1,0,1), so that the CA to C axis is the
unit z vector. -/
def glyC1 : Residue := ⟨[⟨"N", 2, 0, 0, 14⟩, ⟨"CA", 1, 0, 0, 12⟩, ⟨"C", 1, 0, 1, 12⟩]⟩

/-- A residue with one sidechain atom CB. -/
def rcSide : Residue := ⟨[⟨"CA", 0, 0, 0, 12⟩, ⟨"CB", 1, 0, 0, 12⟩]⟩

/-- A single-atom residue at the origin. -/
def cmRes1 : Residue := ⟨[⟨"CA", 0, 0, 0, 12⟩]⟩

/-- A single-atom residue at (3,4,0), Euclidean distance 5 from the origin. -/
def cmRes2 : Residue := ⟨[⟨"CA", 3, 4, 0, 12⟩]⟩

/-- A single carbon atom residue at the origin. -/
def mvRes1 : Residue := ⟨[⟨"C", 0, 0, 0, 12⟩]⟩

/-- A single carbon atom residue at (3,4,0), center distance 5. -/
def mvRes2 : Residue := ⟨[⟨"C", 3, 4, 0, 12⟩]⟩

/-- A single carbon atom residue at (1,0,0), center distance 1. -/
def mvRes3 : Residue := ⟨[⟨"C", 1, 0, 0, 12⟩]⟩

/-- A single-atom residue of an unknown element with the default mass 0. -/
def zeroMassRes : Residue := ⟨[⟨"X1", 0, 0, 0, 0⟩]⟩

/-- A residue holding only an N atom (no CA). -/
def onlyNRes : Residue := ⟨[⟨"N", 0, 0, 0, 14⟩]⟩

/-- C3, evaluation of the code at the failing input: for two single-atom
residues at (0,0,0) and (3,4,0), calc_cmass_distance returns 7 (the code
collapses each centroid to the scalar sum of its coordinates because the
numpy sum is taken without an axis argument), while the centroid distance
the claim describes is 5. -/
theorem c3_cmass_scalar_bug :
    calc_cmass_distance cmRes1 cmRes2 false = PyQ.num 7 ∧
      cmass_distance_spec cmRes1 cmRes2 = some 5 := by
  constructor
  · norm_num [calc_cmass_distance, calc_center_of_mass, pydivQ, pySubQ, pyAbsQ, cmRes1, cmRes2]
  · have h1 : centroid_spec cmRes1.atoms = some ⟨0, 0, 0⟩ := by
      simp [centroid_spec, cmRes1]
    have h2 : centroid_spec cmRes2.atoms = some ⟨3, 4, 0⟩ := by
      simp [centroid_spec, cmRes2]
    rw [cmass_distance_spec, h1, h2]
    simp only [Vec3R.sub, normR]
    norm_num
    rw [show ((25 : ℝ)) = 5 ^ 2 by norm_num]
    exact Real.sqrt_sq (by norm_num)

-- Evaluation helpers shared by the center-of-mass claims.

lemma gly_sidechain_empty : get_sidechain_atoms glyC1 = [] := by
  simp +decide [get_sidechain_atoms, is_sidechain, BACKBONE_FULL_ATOMS, List.filter, glyC1]

lemma rc_sidechain : get_sidechain_atoms rcSide = [⟨"CB", 1, 0, 0, 12⟩] := by
  simp +decide [get_sidechain_atoms, is_sidechain, BACKBONE_FULL_ATOMS, List.filter, rcSide]

lemma com_empty_nan : calc_center_of_mass [] = PyQ.nan := by
  norm_num [calc_center_of_mass, pydivQ]

lemma com_cb_one : calc_center_of_mass [⟨"CB", 1, 0, 0, 12⟩] = PyQ.num 1 := by
  norm_num [calc_center_of_mass, pydivQ]

lemma scc_gly_gly : calc_cmass_distance glyC1 glyC1 true = PyQ.nan := by
  simp [calc_cmass_distance, gly_sidechain_empty, com_empty_nan, pySubQ, pyAbsQ]

lemma scc_gly_rc : calc_cmass_distance glyC1 rcSide true = PyQ.nan := by
  simp [calc_cmass_distance, gly_sidechain_empty, rc_sidechain, com_empty_nan, com_cb_one,
    pySubQ, pyAbsQ]

lemma scc_rc_gly : calc_cmass_distance rcSide glyC1 true = PyQ.nan := by
  simp [calc_cmass_distance, gly_sidechain_empty, rc_sidechain, com_empty_nan, com_cb_one,
    pySubQ, pyAbsQ]

lemma scc_rc_rc : calc_cmass_distance rcSide rcSide true = PyQ.num 0 := by
  simp [calc_cmass_distance, rc_sidechain, com_cb_one, pySubQ, pyAbsQ]

/-- C4, evaluation of the code at the failing input: for a glycine-like
residue with no sidechain atoms, the sidechain center-of-mass distance is
the float nan (0.0/0), not an explicit signal. -/
theorem c4_cmass_nan_not_signalled :
    calc_cmass_distance glyC1 rcSide true = PyQ.nan := by
  simp [calc_cmass_distance, gly_sidechain_empty, rc_sidechain, com_empty_nan, com_cb_one,
    pySubQ, pyAbsQ]

/-- C5, evaluation of the code at the failing input: with a residue that
has no sidechain atoms, the sccmass branch of the main block stores nan in
the affected cells and its deferred list stays empty, so no cell is ever
filled with the matrix maximum. -/
theorem c5_sccmass_nan_never_deferred :
    sccmass_matrix [glyC1, rcSide] 0 1 = PyQ.nan ∧
      (sccmass_pass [glyC1, rcSide]).2 = [] := by
  have g0 : ([glyC1, rcSide] : List Residue).getD 0 emptyRes = glyC1 := rfl
  have g1 : ([glyC1, rcSide] : List Residue).getD 1 emptyRes = rcSide := rfl
  have g0e : ([glyC1, rcSide] : List Residue)[0] = glyC1 := rfl
  have g1e : ([glyC1, rcSide] : List Residue)[1] = rcSide := rfl
  have hpass : sccmass_pass [glyC1, rcSide] =
      (updMatQ (updMatQ (updMatQ (updMatQ matZeroQ 0 0 PyQ.nan) 0 1 PyQ.nan) 1 0 PyQ.nan)
        1 1 (PyQ.num 0), []) := by
    simp [sccmass_pass, allCells, List.range_succ, g0, g1, g0e, g1e,
      scc_gly_gly, scc_gly_rc, scc_rc_gly, scc_rc_rc]
  constructor
  · simp [sccmass_matrix, hpass, updMatQ]
  · simp [hpass]

/-- C6, counterexample: the dispatcher does not succeed on the selector
sccmass (the sccmass branch of calc_distance is commented out in the
source), contradicting the claim that every selector of the enumeration
CA, CB, cmass, sccmass, minvdw is dispatched successfully. -/
theorem c6_counterexample :
    calc_distance cmRes1 cmRes2 "sccmass" = .error .unsupportedMetric := by
  simp [calc_distance]

/-- C10: for every atom, is_backbone and is_sidechain are never both true,
and the hydrogen and terminal-oxygen names H, H1, H2, H3, OXT are
classified as neither backbone nor sidechain. -/
theorem c10_classifier_disjoint :
    ∀ a : Atom, ¬(is_backbone a = true ∧ is_sidechain a = true) ∧
      (a.id ∈ ["H", "H1", "H2", "H3", "OXT"] →
        is_backbone a = false ∧ is_sidechain a = false) := by
  intro a
  constructor
  · rintro ⟨hb, hs⟩
    have hmem : a.id ∈ BACKBONE_ATOMS := List.mem_of_elem_eq_true hb
    have hfull : a.id ∈ BACKBONE_FULL_ATOMS :=
      (by decide : ∀ s ∈ BACKBONE_ATOMS, s ∈ BACKBONE_FULL_ATOMS) a.id hmem
    simp [is_sidechain] at hs
    exact hs hfull
  · intro h
    simp only [List.mem_cons, List.not_mem_nil, or_false] at h
    rcases h with h | h | h | h | h <;>
      exact ⟨by simp +decide [is_backbone, BACKBONE_ATOMS, h],
             by simp +decide [is_sidechain, BACKBONE_FULL_ATOMS, h]⟩

-- Evaluation helpers for the virtual CB claim.

lemma gly_lookup_cb : glyC1.lookup "CB" = none := rfl

lemma gly_lookup_n : glyC1.lookup "N" = some ⟨"N", 2, 0, 0, 14⟩ := rfl

lemma gly_lookup_ca : glyC1.lookup "CA" = some ⟨"CA", 1, 0, 0, 12⟩ := rfl

lemma gly_lookup_c : glyC1.lookup "C" = some ⟨"C", 1, 0, 1, 12⟩ := rfl

lemma cos_angle_120 : Real.cos (Real.pi * 120 / 180) = -(1/2) := by
  have hang : Real.pi * 120 / 180 = Real.pi - Real.pi / 3 := by ring
  rw [hang, Real.cos_pi_sub, Real.cos_pi_div_three]

/-- C1, evaluation of the code and of the claim formula at the failing
input glyC1 (N = (2,0,0), CA = (1,0,0), C = (1,0,1), no CB): the code adds
to CA the rotation of the absolute position vector N (the CA to N vector
it computes is left unused), giving a point with x-coordinate 0, while the
formula of the claim (rotate the vector CA to N by minus 120 degrees about
the CA to C axis and add the result to CA) gives x-coordinate 1/2. -/
theorem c1_virtual_cb_uses_absolute_n :
    (get_atom_coord glyC1 "CB").map Vec3R.x = Except.ok 0 ∧
      (virtualCB_spec glyC1).map Vec3R.x = some (1/2 : ℝ) := by
  constructor
  · have hred : get_atom_coord glyC1 "CB" =
        Except.ok (Vec3R.add (Atom.coordR ⟨"CA", 1, 0, 0, 12⟩)
          (left_multiply
            (rotaxis (Real.pi * 120.0 / 180.0)
              (Vec3R.sub (Atom.coordR ⟨"C", 1, 0, 1, 12⟩) (Atom.coordR ⟨"CA", 1, 0, 0, 12⟩)))
            (Atom.coordR ⟨"N", 2, 0, 0, 14⟩))) := by
      simp +decide [get_atom_coord, gly_lookup_cb, gly_lookup_n, gly_lookup_ca, gly_lookup_c]
    rw [hred]
    simp only [Except.map, Vec3R.add, Vec3R.sub, Atom.coordR, rotaxis, left_multiply]
    norm_num [Real.sqrt_one]
    rw [cos_angle_120]
    norm_num
  · simp only [virtualCB_spec, gly_lookup_n, gly_lookup_ca, gly_lookup_c]
    simp only [Option.map, rodrigues, normalizeV, normR, crossV, dotV, smulV,
      Vec3R.add, Vec3R.sub, Atom.coordR, Real.cos_neg, Real.sin_neg]
    norm_num [Real.sqrt_one]
    rw [cos_angle_120]
    norm_num

-- Dispatch helpers.

lemma get_atom_coord_of_present (res : Residue) (name : String) (a : Atom)
    (h : res.lookup name = some a) : get_atom_coord res name = .ok a.coordR := by
  simp [get_atom_coord, h]

lemma get_atom_coord_ca_ok (res : Residue) (h : res.lookup "CA" ≠ none) :
    ∃ v, get_atom_coord res "CA" = .ok v := by
  rcases hl : res.lookup "CA" with _ | a
  · exact absurd hl h
  · exact ⟨a.coordR, get_atom_coord_of_present res "CA" a hl⟩

/-- The hypotheses under which get_atom_coord succeeds on the name CB:
either the residue has a CB atom, or it has the three backbone atoms N, CA
and C needed for the virtual reconstruction. -/
def cbReady (res : Residue) : Prop :=
  res.lookup "CB" ≠ none ∨
    (res.lookup "N" ≠ none ∧ res.lookup "CA" ≠ none ∧ res.lookup "C" ≠ none)

lemma get_atom_coord_cb_ok (res : Residue) (h : cbReady res) :
    ∃ v, get_atom_coord res "CB" = .ok v := by
  rcases hl : res.lookup "CB" with _ | a
  · rcases h with h | ⟨hn, hca, hc⟩
    · exact absurd hl h
    · rcases hn' : res.lookup "N" with _ | nA
      · exact absurd hn' hn
      rcases hca' : res.lookup "CA" with _ | caA
      · exact absurd hca' hca
      rcases hc' : res.lookup "C" with _ | cA
      · exact absurd hc' hc
      exact ⟨Vec3R.add caA.coordR
          (left_multiply
            (rotaxis (Real.pi * 120.0 / 180.0) (Vec3R.sub cA.coordR caA.coordR))
            nA.coordR),
        by simp [get_atom_coord, hl, hn', hca', hc']⟩
  · exact ⟨a.coordR, get_atom_coord_of_present res "CB" a hl⟩

/-- C6 (amended): the dispatcher returns a distance for the selectors CA,
CB (given residues carrying the atoms those metrics need), cmass and
minvdw, and fails with UnsupportedMetricError for every other selector,
sccmass included: the sccmass branch is commented out in the source, so
sccmass is not dispatched. -/
theorem c6_dispatch_amended :
    (∀ ra rb : Residue, ra.lookup "CA" ≠ none → rb.lookup "CA" ≠ none →
        ∃ v, calc_distance ra rb "CA" = .ok v)
    ∧ (∀ ra rb : Residue, cbReady ra → cbReady rb →
        ∃ v, calc_distance ra rb "CB" = .ok v)
    ∧ (∀ ra rb : Residue, ∃ v, calc_distance ra rb "cmass" = .ok v)
    ∧ (∀ ra rb : Residue, ∃ v, calc_distance ra rb "minvdw" = .ok v)
    ∧ (∀ (ra rb : Residue) (m : String),
        m ∉ (["CA", "CB", "cmass", "minvdw"] : List String) →
        calc_distance ra rb m = .error .unsupportedMetric) := by
  refine ⟨?_, ?_, ?_, ?_, ?_⟩
  · intro ra rb ha hb
    obtain ⟨va, hva⟩ := get_atom_coord_ca_ok ra ha
    obtain ⟨vb, hvb⟩ := get_atom_coord_ca_ok rb hb
    exact ⟨.num (normR (Vec3R.sub va vb)), by simp [calc_distance, hva, hvb]⟩
  · intro ra rb ha hb
    obtain ⟨va, hva⟩ := get_atom_coord_cb_ok ra ha
    obtain ⟨vb, hvb⟩ := get_atom_coord_cb_ok rb hb
    exact ⟨.num (normR (Vec3R.sub va vb)), by simp [calc_distance, hva, hvb]⟩
  · intro ra rb
    exact ⟨PyQ.toR (calc_cmass_distance ra rb false), by simp [calc_distance]⟩
  · intro ra rb
    exact ⟨minvdwVal (calc_minvdw_distance ra rb), by simp [calc_distance]⟩
  · intro ra rb m hm
    simp only [List.mem_cons, List.not_mem_nil, or_false, not_or] at hm
    obtain ⟨h1, h2, h3, h4⟩ := hm
    simp [calc_distance, h1, h2, h3, h4]

/-- Witness for C6 (amended): dispatch succeeds on cmass and rejects an
unknown selector at concrete inputs. -/
theorem c6_dispatch_witness :
    (∃ v, calc_distance cmRes1 cmRes2 "cmass" = .ok v) ∧
      calc_distance cmRes1 cmRes2 "foobar" = .error .unsupportedMetric :=
  ⟨c6_dispatch_amended.2.2.1 cmRes1 cmRes2,
   c6_dispatch_amended.2.2.2.2 cmRes1 cmRes2 "foobar" (by decide)⟩

/-- C8, counterexample: the claim states that the lookup fails with
UnsupportedAtomError exactly when the atom is absent and the name is
outside the set containing CA and CB.  For a residue holding only an N
atom, looking up "CA" raises UnsupportedAtomError even though the name
"CA" is inside that set, so the stated equivalence is false. -/
theorem c8_counterexample :
    ¬ ((get_atom_coord onlyNRes "CA" = .error .unsupportedAtom) ↔
        (onlyNRes.lookup "CA" = none ∧ "CA" ≠ "CA" ∧ "CA" ≠ "CB")) := by
  intro h
  have hca : get_atom_coord onlyNRes "CA" = .error .unsupportedAtom := by
    simp +decide [get_atom_coord, Residue.lookup, onlyNRes, List.find?]
  exact (h.mp hca).2.1 rfl

/-- C8 (amended): get_atom_coord returns the coordinate of the named atom
whenever it is present, and fails with UnsupportedAtomError exactly when
the named atom is absent and the name is not CB (the only name with a
reconstruction rule; a missing CB with incomplete backbone fails with an
assertion error instead). -/
theorem c8_atom_lookup_amended :
    (∀ (res : Residue) (name : String) (a : Atom), res.lookup name = some a →
        get_atom_coord res name = .ok a.coordR)
    ∧ (∀ (res : Residue) (name : String),
        get_atom_coord res name = .error .unsupportedAtom ↔
          (res.lookup name = none ∧ name ≠ "CB")) := by
  constructor
  · exact get_atom_coord_of_present
  · intro res name
    constructor
    · intro h
      rcases hl : res.lookup name with _ | a
      · refine ⟨rfl, ?_⟩
        intro hn
        subst hn
        rcases hn' : res.lookup "N" with _ | nA <;>
          rcases hca' : res.lookup "CA" with _ | caA <;>
            rcases hc' : res.lookup "C" with _ | cA <;>
              simp [get_atom_coord, hl, hn', hca', hc'] at h
      · simp [get_atom_coord, hl] at h
    · rintro ⟨hl, hn⟩
      simp [get_atom_coord, hl, hn]

/-- Witness for C8 (amended): at a concrete residue, a present atom is
returned and a missing CA raises UnsupportedAtomError. -/
theorem c8_atom_lookup_witness :
    get_atom_coord onlyNRes "N" = .ok (Atom.coordR ⟨"N", 0, 0, 0, 14⟩) ∧
      get_atom_coord onlyNRes "OXT" = .error .unsupportedAtom :=
  ⟨c8_atom_lookup_amended.1 onlyNRes "N" ⟨"N", 0, 0, 0, 14⟩ rfl,
   (c8_atom_lookup_amended.2 onlyNRes "OXT").mpr ⟨rfl, by decide⟩⟩

-- Pair-enumeration and matrix-filling lemmas for the matrix builder.

lemma mem_allPairs {n i j : Nat} : (i, j) ∈ allPairs n ↔ i < j ∧ j < n := by
  simp only [allPairs, List.mem_bind, List.mem_map, List.mem_filter, List.mem_range,
    decide_eq_true_eq]
  constructor
  · rintro ⟨a, ha, b, ⟨hb, hab⟩, heq⟩
    cases heq
    exact ⟨hab, hb⟩
  · rintro ⟨hij, hjn⟩
    exact ⟨i, lt_trans hij hjn, j, ⟨hjn, hij⟩, rfl⟩

lemma allPairs_nodup (n : Nat) : (allPairs n).Nodup := by
  rw [allPairs, List.nodup_bind]
  constructor
  · intro i _
    exact ((List.nodup_range n).filter _).map (fun a b h => (Prod.mk.injEq _ _ _ _ ▸ h).2)
  · apply List.Pairwise.imp ?_ (List.nodup_range n)
    intro a b hne p hpa hpb
    simp only [List.mem_map, List.mem_filter] at hpa hpb
    obtain ⟨ja, _, rfl⟩ := hpa
    obtain ⟨jb, _, heq⟩ := hpb
    exact hne (congrArg Prod.fst heq).symm

lemma fillPairs_nil (res : List Residue) (met : String) (m : MatR) :
    fillPairs res met [] m = .ok m := rfl

lemma fillPairs_cons (res : List Residue) (met : String) (p : Nat × Nat)
    (rest : List (Nat × Nat)) (m : MatR) :
    fillPairs res met (p :: rest) m =
      match calc_distance (res.getD p.1 emptyRes) (res.getD p.2 emptyRes) met with
      | .error e => .error e
      | .ok PyR.pynone => .error .typeError
      | .ok d => fillPairs res met rest (updMat m p.1 p.2 d) := rfl

lemma fillPairs_cons_ok (res : List Residue) (met : String) (p : Nat × Nat)
    (rest : List (Nat × Nat)) (m : MatR) (d : PyR)
    (hd : calc_distance (res.getD p.1 emptyRes) (res.getD p.2 emptyRes) met = .ok d)
    (hne : d ≠ PyR.pynone) :
    fillPairs res met (p :: rest) m = fillPairs res met rest (updMat m p.1 p.2 d) := by
  rw [fillPairs_cons, hd]
  cases d with
  | pynone => exact absurd rfl hne
  | num x => rfl
  | inf => rfl
  | ninf => rfl
  | nan => rfl

lemma fillPairs_cons_ok_inv (res : List Residue) (met : String) (p : Nat × Nat)
    (rest : List (Nat × Nat)) (m m' : MatR)
    (h : fillPairs res met (p :: rest) m = .ok m') :
    ∃ d, calc_distance (res.getD p.1 emptyRes) (res.getD p.2 emptyRes) met = .ok d ∧
      d ≠ PyR.pynone ∧ fillPairs res met rest (updMat m p.1 p.2 d) = .ok m' := by
  rcases hd : calc_distance (res.getD p.1 emptyRes) (res.getD p.2 emptyRes) met with e | d
  · rw [fillPairs_cons, hd] at h
    exact absurd h (by simp)
  · cases d with
    | pynone =>
      rw [fillPairs_cons, hd] at h
      exact absurd h (by simp)
    | num x =>
      rw [fillPairs_cons, hd] at h
      exact ⟨_, rfl, by simp, h⟩
    | inf =>
      rw [fillPairs_cons, hd] at h
      exact ⟨_, rfl, by simp, h⟩
    | ninf =>
      rw [fillPairs_cons, hd] at h
      exact ⟨_, rfl, by simp, h⟩
    | nan =>
      rw [fillPairs_cons, hd] at h
      exact ⟨_, rfl, by simp, h⟩

lemma fillPairs_untouched (res : List Residue) (met : String) :
    ∀ (L : List (Nat × Nat)) (m m' : MatR), fillPairs res met L m = .ok m' →
      ∀ a b, (a, b) ∉ L → m' a b = m a b := by
  intro L
  induction L with
  | nil =>
    intro m m' h a b _
    rw [fillPairs_nil] at h
    cases h
    rfl
  | cons p rest ih =>
    intro m m' h a b hmem
    obtain ⟨d, hd, hne, hrest⟩ := fillPairs_cons_ok_inv res met p rest m m' h
    have hrec := ih _ _ hrest a b (fun hc => hmem (List.mem_cons_of_mem _ hc))
    rw [hrec]
    have hnp : ¬(a = p.1 ∧ b = p.2) := by
      rintro ⟨rfl, rfl⟩
      exact hmem (List.mem_cons_self _ _)
    simp [updMat, hnp]

lemma fillPairs_stored (res : List Residue) (met : String) :
    ∀ (L : List (Nat × Nat)), L.Nodup → ∀ (m m' : MatR),
      fillPairs res met L m = .ok m' →
      ∀ i j, (i, j) ∈ L →
        calc_distance (res.getD i emptyRes) (res.getD j emptyRes) met = .ok (m' i j) ∧
          m' i j ≠ PyR.pynone := by
  intro L
  induction L with
  | nil =>
    intro _ m m' _ i j hmem
    exact absurd hmem (List.not_mem_nil _)
  | cons p rest ih =>
    intro hnd m m' h i j hmem
    obtain ⟨d, hd, hne, hrest⟩ := fillPairs_cons_ok_inv res met p rest m m' h
    rcases List.mem_cons.mp hmem with heq | hmemr
    · cases heq
      have hnotin : (i, j) ∉ rest := (List.nodup_cons.mp hnd).1
      have hm' := fillPairs_untouched res met rest _ _ hrest i j hnotin
      have hupd : updMat m i j d i j = d := by simp [updMat]
      rw [hm', hupd]
      exact ⟨hd, hne⟩
    · exact ih (List.nodup_cons.mp hnd).2 _ _ hrest i j hmemr

/-- C2 (amended): whenever make_dist_matrix returns a matrix (which
requires every pairwise dispatch to succeed, so in particular the selector
is not sccmass and not unrecognized once the list has at least two
residues), each upper-triangle entry [i][j] with i < j holds the
dispatched distance of residues i and j, every diagonal entry is 0, and
every lower-triangle entry is 0. -/
theorem c2_matrix_builder_amended :
    ∀ (residues : List Residue) (metric : String) (mat : MatR),
      make_dist_matrix residues metric = .ok mat →
      (∀ i j, i < j → j < residues.length →
        calc_distance (residues.getD i emptyRes) (residues.getD j emptyRes) metric
          = .ok (mat i j))
      ∧ (∀ i, mat i i = .num 0)
      ∧ (∀ i j, j ≤ i → mat i j = .num 0) := by
  intro residues metric mat h
  rw [make_dist_matrix] at h
  refine ⟨?_, ?_, ?_⟩
  · intro i j hij hjn
    exact (fillPairs_stored residues metric _ (allPairs_nodup _) _ _ h i j
      (mem_allPairs.mpr ⟨hij, hjn⟩)).1
  · intro i
    have hnot : (i, i) ∉ allPairs residues.length := by
      intro hc
      exact absurd (mem_allPairs.mp hc).1 (lt_irrefl i)
    exact fillPairs_untouched residues metric _ _ _ h i i hnot
  · intro i j hji
    have hnot : (i, j) ∉ allPairs residues.length := by
      intro hc
      exact absurd (mem_allPairs.mp hc).1 (not_lt.mpr hji)
    exact fillPairs_untouched residues metric _ _ _ h i j hnot

/-- C2, counterexample: for the selector sccmass and a two-residue list
the builder raises instead of returning a matrix, contradicting the claim
that it returns an n x n matrix for every metric selector. -/
theorem c2_counterexample :
    make_dist_matrix [cmRes1, cmRes2] "sccmass" = .error .unsupportedMetric := by
  rw [make_dist_matrix, show ([cmRes1, cmRes2] : List Residue).length = 2 from rfl,
    show allPairs 2 = [(0, 1)] from by decide, fillPairs_cons]
  have hsc : calc_distance (([cmRes1, cmRes2] : List Residue).getD 0 emptyRes)
      (([cmRes1, cmRes2] : List Residue).getD 1 emptyRes) "sccmass"
      = .error .unsupportedMetric := by
    simp [calc_distance]
  rw [hsc]

/-- The distance value stored at [0][1] by the CA build on cmRes1, cmRes2. -/
noncomputable def matCAex : MatR :=
  updMat matZero 0 1
    (PyR.num (normR (Vec3R.sub (Atom.coordR ⟨"CA", 0, 0, 0, 12⟩)
      (Atom.coordR ⟨"CA", 3, 4, 0, 12⟩))))

/-- Witness for C2 (amended): the CA build on a concrete two-residue list
satisfies all three properties at concrete indices. -/
theorem c2_matrix_builder_witness :
    calc_distance cmRes1 cmRes2 "CA" = .ok (matCAex 0 1) ∧
      matCAex 0 0 = .num 0 ∧ matCAex 1 0 = .num 0 := by
  have h := c2_matrix_builder_amended [cmRes1, cmRes2] "CA" matCAex rfl
  exact ⟨h.1 0 1 (by decide) (by decide), h.2.1 0, h.2.2 1 0 (by decide)⟩

/-- Non-negativity of a Python float value: a nonnegative finite number or
positive infinity; nan, negative infinity and None do not count. -/
def PyR.nonnegV : PyR → Prop
  | .num x => 0 ≤ x
  | .inf => True
  | .ninf => False
  | .nan => False
  | .pynone => False

lemma fillPairs_nonnegV (res : List Residue) (met : String) :
    ∀ (L : List (Nat × Nat)) (m m' : MatR),
      (∀ p ∈ L, ∀ d, calc_distance (res.getD p.1 emptyRes) (res.getD p.2 emptyRes) met
        = .ok d → PyR.nonnegV d) →
      (∀ a b, PyR.nonnegV (m a b)) → fillPairs res met L m = .ok m' →
      ∀ a b, PyR.nonnegV (m' a b) := by
  intro L
  induction L with
  | nil =>
    intro m m' _ hm h
    rw [fillPairs_nil] at h
    cases h
    exact hm
  | cons p rest ih =>
    intro m m' hval hm h
    obtain ⟨d, hd, _, hrest⟩ := fillPairs_cons_ok_inv res met p rest m m' h
    refine ih _ _ (fun q hq => hval q (List.mem_cons_of_mem _ hq)) ?_ hrest
    intro a b
    by_cases hab : a = p.1 ∧ b = p.2
    · simpa [updMat, hab] using hval p (List.mem_cons_self _ _) d hd
    · simpa [updMat, hab] using hm a b

lemma calc_distance_ca_cb_nonnegV (ra rb : Residue) (met : String)
    (hm : met = "CA" ∨ met = "CB") (d : PyR)
    (h : calc_distance ra rb met = .ok d) : PyR.nonnegV d := by
  rw [calc_distance, if_pos hm] at h
  rcases hA : get_atom_coord ra met with e | A
  · rw [hA] at h
    simp at h
  · rcases hB : get_atom_coord rb met with e | B
    · rw [hA, hB] at h
      simp at h
    · rw [hA, hB] at h
      simp only at h
      cases h
      simp only [PyR.nonnegV, normR]
      exact Real.sqrt_nonneg _

lemma calc_distance_cmass_nonnegV (ra rb : Residue)
    (ha : 0 < (ra.atoms.map Atom.mass).sum) (hb : 0 < (rb.atoms.map Atom.mass).sum)
    (d : PyR) (h : calc_distance ra rb "cmass" = .ok d) : PyR.nonnegV d := by
  have hca : calc_center_of_mass ra.atoms =
      .num ((ra.atoms.map (fun a => a.mass * (a.cx + a.cy + a.cz))).sum
        / (ra.atoms.map Atom.mass).sum) := by
    rw [calc_center_of_mass, pydivQ, if_neg (ne_of_gt ha)]
  have hcb : calc_center_of_mass rb.atoms =
      .num ((rb.atoms.map (fun a => a.mass * (a.cx + a.cy + a.cz))).sum
        / (rb.atoms.map Atom.mass).sum) := by
    rw [calc_center_of_mass, pydivQ, if_neg (ne_of_gt hb)]
  have hcm : calc_distance ra rb "cmass"
      = .ok (PyQ.toR (calc_cmass_distance ra rb false)) := by
    simp [calc_distance]
  rw [hcm] at h
  cases h
  simp only [calc_cmass_distance, Bool.false_eq_true, if_false, hca, hcb, pySubQ, pyAbsQ,
    PyQ.toR, PyR.nonnegV]
  positivity

/-- C9 (amended): all entries of a successfully built matrix are
non-negative for the CA and CB metrics, and for cmass when every residue
has positive total mass; for minvdw a concrete input produces a strictly
negative entry.  The builder does not dispatch sccmass at all (see the C2
counterexample), and a zero-total-mass residue makes a cmass entry nan
(see the C9 counterexample). -/
theorem c9_sign_amended :
    (∀ (residues : List Residue) (metric : String) (mat : MatR),
        (metric = "CA" ∨ metric = "CB") → make_dist_matrix residues metric = .ok mat →
        ∀ a b, PyR.nonnegV (mat a b))
    ∧ (∀ (residues : List Residue) (mat : MatR),
        (∀ r ∈ residues, 0 < (r.atoms.map Atom.mass).sum) →
        make_dist_matrix residues "cmass" = .ok mat →
        ∀ a b, PyR.nonnegV (mat a b))
    ∧ (∃ mat : MatR, make_dist_matrix [mvRes1, mvRes3] "minvdw" = .ok mat ∧
        ∃ x : ℝ, mat 0 1 = .num x ∧ x < 0) := by
  refine ⟨?_, ?_, ?_⟩
  · intro residues metric mat hm h
    rw [make_dist_matrix] at h
    exact fillPairs_nonnegV residues metric _ _ _
      (fun p _ d hd => calc_distance_ca_cb_nonnegV _ _ metric hm d hd)
      (fun a b => by simp [matZero, PyR.nonnegV]) h
  · intro residues mat hmass h
    rw [make_dist_matrix] at h
    refine fillPairs_nonnegV residues "cmass" _ _ _ ?_
      (fun a b => by simp [matZero, PyR.nonnegV]) h
    intro p hp d hd
    obtain ⟨h1, h2⟩ := mem_allPairs.mp hp
    have hp1 : p.1 < residues.length := lt_trans h1 h2
    have hma : 0 < ((residues.getD p.1 emptyRes).atoms.map Atom.mass).sum := by
      refine hmass _ ?_
      rw [List.getD_eq_getElem residues emptyRes hp1]
      exact List.getElem_mem hp1
    have hmb : 0 < ((residues.getD p.2 emptyRes).atoms.map Atom.mass).sum := by
      refine hmass _ ?_
      rw [List.getD_eq_getElem residues emptyRes h2]
      exact List.getElem_mem h2
    exact calc_distance_cmass_nonnegV _ _ hma hmb d hd
  · refine ⟨updMat matZero 0 1 (PyR.num (pair_vdw_dist ⟨"C", 0, 0, 0, 12⟩ ⟨"C", 1, 0, 0, 12⟩)),
      rfl, pair_vdw_dist ⟨"C", 0, 0, 0, 12⟩ ⟨"C", 1, 0, 0, 12⟩, by simp [updMat], ?_⟩
    have he : atom_element (⟨"C", 0, 0, 0, 12⟩ : Atom) = 'C' := rfl
    have he2 : atom_element (⟨"C", 1, 0, 0, 12⟩ : Atom) = 'C' := rfl
    have hv : VDW_RADII 'C' = 17 / 10 := by
      simp +decide only [VDW_RADII]
      norm_num
    simp only [pair_vdw_dist, he, he2, Vec3R.sub, Atom.coordR, normR, hv]
    norm_num

/-- C9, counterexample: the claim asserts non-negative cmass entries for
every residue list, but a residue whose atoms all carry the default mass 0
(an unknown element) makes the centroid division 0.0/0 evaluate to nan, so
the stored entry is nan, which is not non-negative. -/
theorem c9_counterexample :
    (make_dist_matrix [zeroMassRes, zeroMassRes] "cmass").map (fun m => m 0 1)
      = Except.ok PyR.nan ∧ ¬ PyR.nonnegV PyR.nan := by
  constructor
  · have hc : calc_distance (([zeroMassRes, zeroMassRes] : List Residue).getD 0 emptyRes)
        (([zeroMassRes, zeroMassRes] : List Residue).getD 1 emptyRes) "cmass"
        = .ok PyR.nan := by
      have h1 : ([zeroMassRes, zeroMassRes] : List Residue).getD 0 emptyRes = zeroMassRes := rfl
      have h2 : ([zeroMassRes, zeroMassRes] : List Residue).getD 1 emptyRes = zeroMassRes := rfl
      have hstep : calc_distance zeroMassRes zeroMassRes "cmass"
          = .ok (PyQ.toR (calc_cmass_distance zeroMassRes zeroMassRes false)) := by
        simp [calc_distance]
      have hval : calc_cmass_distance zeroMassRes zeroMassRes false = PyQ.nan := by
        norm_num [calc_cmass_distance, calc_center_of_mass, zeroMassRes, pydivQ, pySubQ,
          pyAbsQ]
      rw [h1, h2, hstep, hval]
      rfl
    have h : make_dist_matrix [zeroMassRes, zeroMassRes] "cmass"
        = .ok (updMat matZero 0 1 PyR.nan) := by
      rw [make_dist_matrix, show ([zeroMassRes, zeroMassRes] : List Residue).length = 2 from rfl,
        show allPairs 2 = [(0, 1)] from by decide,
        fillPairs_cons_ok _ _ _ _ _ _ hc (by simp), fillPairs_nil]
    rw [h]
    simp [Except.map, updMat]
  · exact fun h => h

/-- Witness for C9 (amended): at a concrete two-residue CA build, the
upper-triangle entry at [0][1] is non-negative. -/
theorem c9_sign_witness : PyR.nonnegV (matCAex 0 1) :=
  (c9_sign_amended.1 [cmRes1, cmRes2] "CA" matCAex (Or.inl rfl) rfl) 0 1

-- Fold lemmas for the minvdw minimum loop.

lemma foldl_minStep_some (l : List ℝ) : ∀ a : ℝ,
    ∃ m, l.foldl minStep (some a) = some m ∧ m ≤ a ∧ (∀ x ∈ l, m ≤ x) ∧
      (m = a ∨ m ∈ l) := by
  induction l with
  | nil =>
    intro a
    exact ⟨a, rfl, le_refl a, by simp, Or.inl rfl⟩
  | cons d rest ih =>
    intro a
    by_cases hlt : d < a
    · obtain ⟨m, hm, hle, hall, hmem⟩ := ih d
      refine ⟨m, ?_, le_trans hle (le_of_lt hlt), ?_, ?_⟩
      · rw [List.foldl_cons, show minStep (some a) d = some d from by simp [minStep, hlt]]
        exact hm
      · intro x hx
        rcases List.mem_cons.mp hx with rfl | hx'
        · exact hle
        · exact hall x hx'
      · rcases hmem with rfl | hm'
        · exact Or.inr (List.mem_cons_self _ _)
        · exact Or.inr (List.mem_cons_of_mem _ hm')
    · obtain ⟨m, hm, hle, hall, hmem⟩ := ih a
      refine ⟨m, ?_, hle, ?_, ?_⟩
      · rw [List.foldl_cons, show minStep (some a) d = some a from by simp [minStep, hlt]]
        exact hm
      · intro x hx
        rcases List.mem_cons.mp hx with rfl | hx'
        · exact le_trans hle (not_lt.mp hlt)
        · exact hall x hx'
      · rcases hmem with rfl | hm'
        · exact Or.inl rfl
        · exact Or.inr (List.mem_cons_of_mem _ hm')

lemma foldl_minStep_from_none (l : List ℝ) (hl : l ≠ []) :
    ∃ m, l.foldl minStep none = some m ∧ (∀ x ∈ l, m ≤ x) ∧ m ∈ l := by
  cases l with
  | nil => exact absurd rfl hl
  | cons d rest =>
    obtain ⟨m, hm, hle, hall, hmem⟩ := foldl_minStep_some rest d
    refine ⟨m, ?_, ?_, ?_⟩
    · rw [List.foldl_cons, show minStep none d = some d from rfl]
      exact hm
    · intro x hx
      rcases List.mem_cons.mp hx with rfl | hx'
      · exact hle
      · exact hall x hx'
    · rcases hmem with rfl | hm'
      · exact List.mem_cons_self _ _
      · exact List.mem_cons_of_mem _ hm'

/-- C7: for residues with at least one atom each, calc_minvdw_distance
returns the minimum over all atom pairs of the center distance minus the
two VDW radii (the returned value is a lower bound of every pair value and
is attained by some pair); at the concrete input of two single carbon
atoms with center distance 5, the result is 5 - 1.70 - 1.70 = 1.60. -/
theorem c7_minvdw_min :
    (∀ ra rb : Residue, ra.atoms ≠ [] → rb.atoms ≠ [] →
      ∃ m, calc_minvdw_distance ra rb = some m ∧
        (∀ a ∈ ra.atoms, ∀ b ∈ rb.atoms, m ≤ pair_vdw_dist a b) ∧
        (∃ a ∈ ra.atoms, ∃ b ∈ rb.atoms, m = pair_vdw_dist a b))
    ∧ calc_minvdw_distance mvRes1 mvRes2 = some (8 / 5) := by
  constructor
  · intro ra rb ha hb
    have hne : (ra.atoms.bind (fun a => rb.atoms.map (fun b => pair_vdw_dist a b))) ≠ [] := by
      rcases hra : ra.atoms with _ | ⟨a0, as⟩
      · exact absurd hra ha
      rcases hrb : rb.atoms with _ | ⟨b0, bs⟩
      · exact absurd hrb hb
      simp
    obtain ⟨m, hm, hall, hmem⟩ := foldl_minStep_from_none _ hne
    refine ⟨m, hm, ?_, ?_⟩
    · intro a haa b hbb
      apply hall
      simp only [List.mem_bind, List.mem_map]
      exact ⟨a, haa, b, hbb, rfl⟩
    · simp only [List.mem_bind, List.mem_map] at hmem
      obtain ⟨a, haa, b, hbb, heq⟩ := hmem
      exact ⟨a, haa, b, hbb, heq.symm⟩
  · have hl : (mvRes1.atoms.bind fun a => mvRes2.atoms.map fun b => pair_vdw_dist a b)
        = [pair_vdw_dist ⟨"C", 0, 0, 0, 12⟩ ⟨"C", 3, 4, 0, 12⟩] := rfl
    rw [calc_minvdw_distance, hl, List.foldl_cons,
      show minStep none (pair_vdw_dist ⟨"C", 0, 0, 0, 12⟩ ⟨"C", 3, 4, 0, 12⟩)
        = some (pair_vdw_dist ⟨"C", 0, 0, 0, 12⟩ ⟨"C", 3, 4, 0, 12⟩) from rfl,
      List.foldl_nil]
    have he : atom_element (⟨"C", 0, 0, 0, 12⟩ : Atom) = 'C' := rfl
    have he2 : atom_element (⟨"C", 3, 4, 0, 12⟩ : Atom) = 'C' := rfl
    have hv : VDW_RADII 'C' = 17 / 10 := by
      simp +decide only [VDW_RADII]
      norm_num
    simp only [pair_vdw_dist, he, he2, hv, Vec3R.sub, Atom.coordR, normR]
    norm_num
    rw [show ((25 : ℝ)) = 5 ^ 2 by norm_num, Real.sqrt_sq (by norm_num : (0:ℝ) ≤ 5)]
    norm_num

/-- Witness for C7: the minimum characterization instantiated at the two
concrete carbon residues. -/
theorem c7_minvdw_witness :
    ∃ m, calc_minvdw_distance mvRes1 mvRes2 = some m ∧
      (∀ a ∈ mvRes1.atoms, ∀ b ∈ mvRes2.atoms, m ≤ pair_vdw_dist a b) ∧
      (∃ a ∈ mvRes1.atoms, ∃ b ∈ mvRes2.atoms, m = pair_vdw_dist a b) :=
  c7_minvdw_min.1 mvRes1 mvRes2 (by decide) (by decide)

/-- Witness for C10: the hydrogen atom name H is classified as neither
backbone nor sidechain. -/
theorem c10_classifier_witness :
    is_backbone (⟨"H", 0, 0, 0, 1⟩ : Atom) = false ∧
      is_sidechain (⟨"H", 0, 0, 0, 1⟩ : Atom) = false :=
  (c10_classifier_disjoint ⟨"H", 0, 0, 0, 1⟩).2 (by decide)
